import Mathlib

/-!
Verification of the Reversi rules engine and session coordinator.

The definitions below are a shallow embedding of the TypeScript source:
`src/reversi/logic.ts` (rules engine: `canFlip`, `getValidMoves`,
`createInitialBoard`, `getStoneCount`), `src/reversi/useReversiGame.ts`
(session coordinator: `makeMove`, `joinGame`, `handleGameStateUpdate`)
and the near-duplicate `canFlip` inlined in `src/App.tsx`.

A board cell holds `EMPTY = 0`, `BLACK = 1` or `WHITE = 2`; we embed the
three-valued union type as the inductive `Cell`, player colors as `Player`,
and a board as a total function `Int → Int → Cell` (every access in the
source is bounds-guarded, so the values outside the 8x8 grid are never
read).  The remote store is modelled by the patch value a call emits:
`none` means no write was issued.
-/

namespace Reversi

inductive Cell where
  | empty
  | black
  | white
deriving DecidableEq

inductive Player where
  | black
  | white
deriving DecidableEq

/-- The cell value a player's stone shows on the board. -/
def Player.toCell : Player → Cell
  | .black => Cell.black
  | .white => Cell.white

/-- `getOpponent` from logic.ts: `player === BLACK ? WHITE : BLACK`. -/
def getOpponent (player : Player) : Player :=
  if player = Player.black then Player.white else Player.black

/-- An 8x8 board; the source type is `CellValue[][]` and every read is
bounds-guarded, so a total function is a faithful embedding. -/
def Board := Int → Int → Cell

/-- The bounds check of the scan loop: `r >= 0 && r < BOARD_SIZE && c >= 0 && c < BOARD_SIZE`. -/
def inBoard (r c : Int) : Bool :=
  decide (0 ≤ r ∧ r < 8 ∧ 0 ≤ c ∧ c < 8)

/-- The 8-neighborhood `DIRECTIONS` of logic.ts. -/
def DIRECTIONS : List (Int × Int) :=
  [(-1, -1), (-1, 0), (-1, 1), (0, -1), (0, 1), (1, -1), (1, 0), (1, 1)]

/-- `createInitialBoard` from logic.ts: all cells `EMPTY` except the four
center stones. -/
def createInitialBoard : Board := fun r c =>
  if r = 3 ∧ c = 3 then Cell.white
  else if r = 3 ∧ c = 4 then Cell.black
  else if r = 4 ∧ c = 3 then Cell.black
  else if r = 4 ∧ c = 4 then Cell.white
  else Cell.empty

/-- The `while` loop inside `canFlip` (logic.ts) for one direction
`(dr, dc)`: walks from `(r, c)` while in bounds, breaks on an empty cell,
collects opponent cells into `line`, and on reaching a cell of the
player's own color appends the collected `line` to `toFlip` when it is
non-empty.  The loop runs at most 8 in-bounds steps from a neighbor of a
board cell, so fuel 8 reproduces it exactly. -/
def scanLoop (board : Board) (player : Player) (dr dc : Int) :
    Nat → Int → Int → List (Int × Int) → List (Int × Int) → List (Int × Int)
  | 0, _, _, _, toFlip => toFlip
  | fuel + 1, r, c, line, toFlip =>
    if inBoard r c then
      if board r c = Cell.empty then toFlip
      else if board r c = (getOpponent player).toCell then
        scanLoop board player dr dc fuel (r + dr) (c + dc) (line ++ [(r, c)]) toFlip
      else
        if line.length > 0 then toFlip ++ line else toFlip
    else toFlip

/-- `canFlip` from logic.ts: for each of the 8 directions, run the scan
loop starting at the neighbor of `(row, col)` and accumulate the flippable
positions. -/
def canFlip (board : Board) (row col : Int) (player : Player) : List (Int × Int) :=
  DIRECTIONS.foldl
    (fun toFlip d => scanLoop board player d.1 d.2 8 (row + d.1) (col + d.2) [] toFlip) []

/-- `getValidMoves` from logic.ts: scan the 8x8 grid row-major and keep
every empty cell whose `canFlip` is non-empty. -/
def getValidMoves (board : Board) (player : Player) : List (Int × Int) :=
  (List.range 8).flatMap fun (row : Nat) =>
    (List.range 8).flatMap fun (col : Nat) =>
      if board (row : Int) (col : Int) = Cell.empty then
        if (canFlip board (row : Int) (col : Int) player).length > 0 then
          [((row : Int), (col : Int))]
        else []
      else []

/-- `board.flat()` restricted to the 8x8 grid. -/
def boardFlat (board : Board) : List Cell :=
  (List.range 8).flatMap fun (r : Nat) =>
    (List.range 8).map fun (c : Nat) => board (r : Int) (c : Int)

/-- `getStoneCount` from logic.ts: `board.flat().filter(cell => cell === color).length`. -/
def getStoneCount (board : Board) (color : Player) : Nat :=
  (boardFlat board).countP fun cell => decide (cell = color.toCell)

/-! ### The near-duplicate `canFlip` of App.tsx

App.tsx inlines its own `DIRECTIONS` and `canFlip`; its scan loop pushes
`...lineToFlip` unconditionally on reaching an own-colored cell, without
the `lineToFlip.length > 0` guard of the logic.ts version. -/

def DIRECTIONS_APP : List (Int × Int) :=
  [(-1, -1), (-1, 0), (-1, 1), (0, -1), (0, 1), (1, -1), (1, 0), (1, 1)]

/-- The per-direction `while` loop of App.tsx's `canFlip`: identical to
`scanLoop` except that the final push of `line` is unguarded. -/
def scanLoopApp (board : Board) (player : Player) (dr dc : Int) :
    Nat → Int → Int → List (Int × Int) → List (Int × Int) → List (Int × Int)
  | 0, _, _, _, toFlip => toFlip
  | fuel + 1, r, c, line, toFlip =>
    if inBoard r c then
      if board r c = Cell.empty then toFlip
      else if board r c = (if player = Player.black then Player.white else Player.black).toCell then
        scanLoopApp board player dr dc fuel (r + dr) (c + dc) (line ++ [(r, c)]) toFlip
      else
        toFlip ++ line
    else toFlip

/-- `canFlip` as inlined in App.tsx. -/
def canFlipApp (board : Board) (row col : Int) (player : Player) : List (Int × Int) :=
  DIRECTIONS_APP.foldl
    (fun toFlip d => scanLoopApp board player d.1 d.2 8 (row + d.1) (col + d.2) [] toFlip) []

/-! ### Declarative reading of the directional scan

Specification-side description of `canFlip`, written after the spec's
words: from the position, each direction contributes the contiguous run of
opponent-colored cells starting at the adjacent cell, and the run counts
only when the scan terminates on a cell of the mover's own color (a
bracket); a scan ending on an empty cell or the board edge contributes
nothing. -/

/-- The successive cells `(r, c), (r + dr, c + dc), …` of a directional ray. -/
def rayFrom (dr dc : Int) : Nat → Int → Int → List (Int × Int)
  | 0, _, _ => []
  | n + 1, r, c => (r, c) :: rayFrom dr dc n (r + dr) (c + dc)

/-- The 8 cells outward from `(row, col)` in direction `d`, starting at the
adjacent cell.  8 steps cover every in-bounds cell of the ray. -/
def rayPositions (row col : Int) (d : Int × Int) : List (Int × Int) :=
  rayFrom d.1 d.2 8 (row + d.1) (col + d.2)

/-- An in-bounds cell holding the opponent's color. -/
def isOpp (board : Board) (player : Player) (q : Int × Int) : Bool :=
  inBoard q.1 q.2 && decide (board q.1 q.2 = (getOpponent player).toCell)

/-- The scan terminates on a same-colored cell: after dropping the leading
opponent run, the next ray cell is in bounds and holds the mover's color. -/
def bracketB (board : Board) (player : Player) (ps : List (Int × Int)) : Bool :=
  match ps.dropWhile (isOpp board player) with
  | [] => false
  | q :: _ => inBoard q.1 q.2 && decide (board q.1 q.2 = player.toCell)

/-- The contiguous opponent-colored run at the start of direction `d`. -/
def dirRun (board : Board) (row col : Int) (d : Int × Int) (player : Player) :
    List (Int × Int) :=
  (rayPositions row col d).takeWhile (isOpp board player)

/-- Whether direction `d` is bracketed by an own-colored cell. -/
def dirBracket (board : Board) (row col : Int) (d : Int × Int) (player : Player) : Bool :=
  bracketB board player (rayPositions row col d)

/-- The union across the 8 directions of the bracketed opponent runs. -/
def flippableSpec (board : Board) (row col : Int) (player : Player) : List (Int × Int) :=
  DIRECTIONS.flatMap fun d =>
    if dirBracket board row col d player then dirRun board row col d player else []

/-- A single directional scan expressed over an explicit list of ray
cells; `some l` means the run `l` is bracketed, `none` that the scan ended
on an empty cell, the board edge, or ran out of cells. -/
def scanPos (board : Board) (player : Player) : List (Int × Int) → Option (List (Int × Int))
  | [] => none
  | p :: rest =>
    if inBoard p.1 p.2 then
      if board p.1 p.2 = Cell.empty then none
      else if board p.1 p.2 = (getOpponent player).toCell then
        (scanPos board player rest).map (fun l => p :: l)
      else some []
    else none

/-- How a finished directional scan updates the accumulated `toFlip`:
no bracket leaves it alone, a bracketed run `l` (continuing the already
collected `line`) is appended when non-empty.  This packages the loop's
exit behavior for the proofs below. -/
def scanOut (toFlip line : List (Int × Int)) : Option (List (Int × Int)) → List (Int × Int)
  | none => toFlip
  | some l => if (line ++ l).length > 0 then toFlip ++ (line ++ l) else toFlip

/-! ### Session coordinator model (useReversiGame.ts)

`makeMove` is the hook's `makeMove`: it returns the (unchanged) local
state, the boolean result, and the patch written to the remote record
(`none` when no write is issued).  Timestamps are omitted from
`lastMove`: no claim concerns them. -/

inductive GamePhase where
  | setup
  | waiting
  | playing
  | finished
deriving DecidableEq

inductive GameResult where
  | black
  | white
  | draw
deriving DecidableEq

structure LastMove where
  row : Int
  col : Int
  player : Player
deriving DecidableEq

/-- The fields of the single `update(gameStateRef, {...})` call in `makeMove`. -/
structure MovePatch where
  board : Board
  currentPlayer : Player
  gamePhase : GamePhase
  gameResult : Option GameResult
  lastMove : LastMove

/-- The hook state read by `makeMove`: `board`, `currentPlayer`,
`gamePhase`, `gameResult`, `myColor`, and whether `gameStateRef` is set. -/
structure LocalState where
  board : Board
  currentPlayer : Player
  gamePhase : GamePhase
  gameResult : Option GameResult
  myColor : Option Player
  hasGameRef : Bool

/-- The board produced by `newBoard[row][col] = player` followed by
flipping every position of `toFlip` to `player`. -/
def applyMoveBoard (board : Board) (row col : Int) (player : Player)
    (toFlip : List (Int × Int)) : Board := fun r c =>
  if (r = row ∧ c = col) ∨ (r, c) ∈ toFlip then player.toCell else board r c

/-- The body of the successful branch of `makeMove` in useReversiGame.ts:
the new board (placement plus flips), the next player (switched back to
the mover when the opponent has no legal move), the phase and the result
(finished with a majority/draw verdict exactly when neither side has a
legal move on the new board), and the `lastMove` marker, assembled into
the single `update(gameStateRef, {...})` payload.  The stone counts
inline `newBoard.flat().filter(...)` in the source, which is
`getStoneCount`. -/
def movePatchOf (board : Board) (row col : Int) (player : Player) : MovePatch :=
  let toFlip := canFlip board row col player
  let newBoard := applyMoveBoard board row col player toFlip
  let nextPlayer := if player = Player.black then Player.white else Player.black
  let nextValidMoves := getValidMoves newBoard nextPlayer
  let phaseResult : GamePhase × Option GameResult :=
    if nextValidMoves.length = 0 then
      if (getValidMoves newBoard player).length = 0 then
        let blackCount := getStoneCount newBoard Player.black
        let whiteCount := getStoneCount newBoard Player.white
        (GamePhase.finished,
          some (if blackCount > whiteCount then GameResult.black
            else if whiteCount > blackCount then GameResult.white
            else GameResult.draw))
      else (GamePhase.playing, none)
    else (GamePhase.playing, none)
  { board := newBoard
    currentPlayer := if nextValidMoves.length > 0 then nextPlayer else player
    gamePhase := phaseResult.1
    gameResult := phaseResult.2
    lastMove := { row := row, col := col, player := player } }

/-- `makeMove` from useReversiGame.ts.  Guard: `!gameStateRef ||
gamePhase !== 'playing' || currentPlayer !== myColor` returns false; an
empty `canFlip` returns false; otherwise the patch `movePatchOf` is
emitted as the one remote write and true is returned.  The local state is
never touched by this call (it only changes when the subscription
delivers the record back). -/
def makeMove (s : LocalState) (row col : Int) (player : Player) :
    LocalState × Bool × Option MovePatch :=
  if s.hasGameRef = false ∨ s.gamePhase ≠ GamePhase.playing ∨ some s.currentPlayer ≠ s.myColor then
    (s, false, none)
  else if (canFlip s.board row col player).length = 0 then (s, false, none)
  else (s, true, some (movePatchOf s.board row col player))

/-- The shared game record (`GameState` in logic.ts). -/
structure GameRecord where
  board : Board
  currentPlayer : Player
  gamePhase : GamePhase
  gameResult : Option GameResult
  playersBlack : Option String
  playersWhite : Option String

/-- JavaScript truthiness of an optional string field (`undefined` and
`""` are falsy). -/
def jsTruthyStr : Option String → Bool
  | none => false
  | some s => decide (s ≠ "")

/-- `joinGame` from useReversiGame.ts.  Returns `none` when no write is
issued (store not configured, empty id, missing record, or White seat
already truthy); otherwise returns the patched record — `update` merges
`players/white` and `gamePhase` into the existing record — together with
the locally assigned color. -/
def joinGame (configured : Bool) (joinId myId : String)
    (store : String → Option GameRecord) : Option (GameRecord × Player) :=
  if configured = false then none
  else if joinId = "" then none
  else
    match store joinId with
    | none => none
    | some g =>
      if jsTruthyStr g.playersWhite then none
      else some ({ g with playersWhite := some myId, gamePhase := GamePhase.playing },
        Player.white)

/-- An incoming subscribed document before any validation: every field may
be missing (`undefined`), which `Option` models. -/
structure RawRecord where
  board : Option Board
  currentPlayer : Option Player
  gamePhase : Option GamePhase
  gameResult : Option (Option GameResult)
  playersBlack : Option String
  playersWhite : Option String

/-- The coordinator's local view as written by the subscription handler;
fields are optional because the handler copies in whatever the record
holds, including `undefined`. -/
structure LocalView where
  board : Option Board
  currentPlayer : Option Player
  gamePhase : Option GamePhase
  gameResult : Option (Option GameResult)
  opponentConnected : Bool

/-- `handleGameStateUpdate` from useReversiGame.ts: a null snapshot is
discarded (`if (!gameState) return`); otherwise the four game fields are
copied into the local view verbatim and the opponent-seat indicator is
recomputed. -/
def handleGameStateUpdate (myColor : Option Player) (snapshot : Option RawRecord)
    (v : LocalView) : LocalView :=
  match snapshot with
  | none => v
  | some g =>
    { board := g.board
      currentPlayer := g.currentPlayer
      gamePhase := g.gamePhase
      gameResult := g.gameResult
      opponentConnected :=
        if myColor = some Player.black then jsTruthyStr g.playersWhite
        else jsTruthyStr g.playersBlack }

/-! ### Concrete fixtures -/

/-- A playing state for the host (Black) on the standard starting board. -/
def sInit : LocalState :=
  { board := createInitialBoard
    currentPlayer := Player.black
    gamePhase := GamePhase.playing
    gameResult := none
    myColor := some Player.black
    hasGameRef := true }

/-- A board whose cell (0,0) is occupied by White while `canFlip` at (0,0)
for Black is still non-empty: (0,1) is White and (0,2) is Black. -/
def cexBoard : Board := fun r c =>
  if r = 0 ∧ c = 0 then Cell.white
  else if r = 0 ∧ c = 1 then Cell.white
  else if r = 0 ∧ c = 2 then Cell.black
  else Cell.empty

/-- A playing state over `cexBoard` for Black. -/
def sCex : LocalState :=
  { board := cexBoard
    currentPlayer := Player.black
    gamePhase := GamePhase.playing
    gameResult := none
    myColor := some Player.black
    hasGameRef := true }

/-- A local state identical to `sInit` but still waiting for the guest:
the phase guard of `makeMove` rejects moves here. -/
def sWaiting : LocalState :=
  { board := createInitialBoard
    currentPlayer := Player.black
    gamePhase := GamePhase.waiting
    gameResult := none
    myColor := some Player.black
    hasGameRef := true }

/-- The 64 grid coordinates, row-major. -/
def gridIdx : List (Int × Int) :=
  (List.range 8).flatMap fun (r : Nat) =>
    (List.range 8).map fun (c : Nat) => ((r : Int), (c : Int))

/-- An incoming record with every field missing: non-null but malformed. -/
def rawMissingAll : RawRecord :=
  { board := none, currentPlayer := none, gamePhase := none, gameResult := none
    playersBlack := none, playersWhite := none }

/-- A healthy local view before any update arrives. -/
def vStart : LocalView :=
  { board := some createInitialBoard
    currentPlayer := some Player.black
    gamePhase := some GamePhase.playing
    gameResult := some none
    opponentConnected := false }

/-- A session record whose White seat is already claimed. -/
def gSeatTaken : GameRecord :=
  { board := createInitialBoard
    currentPlayer := Player.black
    gamePhase := GamePhase.waiting
    gameResult := none
    playersBlack := some "host"
    playersWhite := some "guest" }

/-- A session record whose White seat is open. -/
def gSeatOpen : GameRecord :=
  { gSeatTaken with playersWhite := none }

/-- A store holding the same record under every token. -/
def storeOf (g : GameRecord) : String → Option GameRecord := fun _ => some g

/-- An empty store. -/
def storeEmpty : String → Option GameRecord := fun _ => none

/-! ### Basic cell facts -/

lemma toCell_ne_empty (p : Player) : p.toCell ≠ Cell.empty := by
  cases p <;> simp [Player.toCell]

lemma opponent_toCell_ne (p : Player) : (getOpponent p).toCell ≠ p.toCell := by
  cases p <;> simp [getOpponent, Player.toCell]

lemma cell_eq_toCell_of_ne (cell : Cell) (p : Player)
    (h1 : cell ≠ Cell.empty) (h2 : cell ≠ (getOpponent p).toCell) : cell = p.toCell := by
  cases cell <;> cases p <;> simp_all [getOpponent, Player.toCell]

/-! ### Equivalence of the App.tsx scan with the logic.ts scan -/

lemma scanLoopApp_eq_scanLoop (board : Board) (player : Player) (dr dc : Int) :
    ∀ (fuel : Nat) (r c : Int) (line toFlip : List (Int × Int)),
      scanLoopApp board player dr dc fuel r c line toFlip
        = scanLoop board player dr dc fuel r c line toFlip := by
  intro fuel
  induction fuel with
  | zero => intro r c line toFlip; rfl
  | succ n ih =>
    intro r c line toFlip
    simp only [scanLoopApp, scanLoop, getOpponent]
    split_ifs <;>
      first
        | rfl
        | exact ih _ _ _ _
        | simp [List.length_eq_zero.mp (show line.length = 0 by omega)]

/-- C9: the `canFlip` duplicated in the App.tsx UI variant returns the same
list of flippable positions as the core `canFlip` of logic.ts, despite the
core's extra non-empty-run guard before pushing (spreading an empty run
pushes nothing, so the guard is redundant). -/
theorem c9_canFlipApp_eq_canFlip (board : Board) (row col : Int) (player : Player) :
    canFlipApp board row col player = canFlip board row col player := by
  simp [canFlipApp, canFlip, DIRECTIONS, DIRECTIONS_APP, scanLoopApp_eq_scanLoop]

/-- C5: the initial board has White at (3,3) and (4,4), Black at (3,4) and
(4,3), every other cell Empty, and Black's legal opening moves are exactly
(2,3), (3,2), (4,5), (5,4). -/
theorem c5_initial_board_and_opening_moves :
    createInitialBoard 3 3 = Cell.white ∧ createInitialBoard 3 4 = Cell.black ∧
    createInitialBoard 4 3 = Cell.black ∧ createInitialBoard 4 4 = Cell.white ∧
    (∀ r c : Int,
      ¬((r = 3 ∧ c = 3) ∨ (r = 3 ∧ c = 4) ∨ (r = 4 ∧ c = 3) ∨ (r = 4 ∧ c = 4)) →
      createInitialBoard r c = Cell.empty) ∧
    getValidMoves createInitialBoard Player.black = [(2, 3), (3, 2), (4, 5), (5, 4)] := by
  refine ⟨by decide, by decide, by decide, by decide, ?_, by decide⟩
  intro r c h
  simp only [createInitialBoard]
  split_ifs with h1 h2 h3 h4 <;> tauto

/-- Witness for C5 at the concrete off-center cell (0,0). -/
theorem c5_witness :
    ¬(((0 : Int) = 3 ∧ (0 : Int) = 3) ∨ ((0 : Int) = 3 ∧ (0 : Int) = 4) ∨
        ((0 : Int) = 4 ∧ (0 : Int) = 3) ∨ ((0 : Int) = 4 ∧ (0 : Int) = 4)) ∧
      createInitialBoard 0 0 = Cell.empty :=
  ⟨by decide, c5_initial_board_and_opening_moves.2.2.2.2.1 0 0 (by decide)⟩

/-- C2: a position is returned by `getValidMoves` exactly when it lies on
the 8x8 grid, its cell is Empty, and `canFlip` there is non-empty; the
empty list is the ordinary value returned when no position qualifies. -/
theorem c2_getValidMoves_mem (board : Board) (player : Player) (r c : Int) :
    (r, c) ∈ getValidMoves board player ↔
      0 ≤ r ∧ r < 8 ∧ 0 ≤ c ∧ c < 8 ∧ board r c = Cell.empty ∧
        canFlip board r c player ≠ [] := by
  constructor
  · intro h
    simp only [getValidMoves, List.mem_flatMap, List.mem_range] at h
    obtain ⟨row, hrow, col, hcol, hmem⟩ := h
    by_cases he : board (row : Int) (col : Int) = Cell.empty
    · rw [if_pos he] at hmem
      by_cases hl : (canFlip board (row : Int) (col : Int) player).length > 0
      · rw [if_pos hl] at hmem
        simp only [List.mem_singleton, Prod.mk.injEq] at hmem
        obtain ⟨hr, hc⟩ := hmem
        subst hr; subst hc
        refine ⟨by omega, by omega, by omega, by omega, he, ?_⟩
        exact List.length_pos.mp hl
      · rw [if_neg hl] at hmem
        simp at hmem
    · rw [if_neg he] at hmem
      simp at hmem
  · rintro ⟨h0, h1, h2, h3, hemp, hflip⟩
    simp only [getValidMoves, List.mem_flatMap, List.mem_range]
    refine ⟨r.toNat, by omega, c.toNat, by omega, ?_⟩
    rw [Int.toNat_of_nonneg h0, Int.toNat_of_nonneg h2]
    rw [if_pos hemp, if_pos (List.length_pos.mpr hflip)]
    simp

/-- C7: joining fails with no write when the session record is missing or
its White seat is already populated, and succeeds exactly by patching
`players/white` and `gamePhase` into the record, assigning local color
White; `none` is the model of "no write issued, record unchanged". -/
theorem c7_joinGame_guards (configured : Bool) (joinId myId : String)
    (store : String → Option GameRecord) (g : GameRecord) :
    (store joinId = some g → jsTruthyStr g.playersWhite = true →
      joinGame configured joinId myId store = none) ∧
    (store joinId = none → joinGame configured joinId myId store = none) ∧
    (configured = true → joinId ≠ "" → store joinId = some g →
      jsTruthyStr g.playersWhite = false →
      joinGame configured joinId myId store =
        some ({ g with playersWhite := some myId, gamePhase := GamePhase.playing },
          Player.white)) := by
  refine ⟨?_, ?_, ?_⟩
  · intro hs ht
    simp only [joinGame, hs, ht]
    split_ifs <;> rfl
  · intro hs
    simp only [joinGame, hs]
    split_ifs <;> rfl
  · intro hc hid hs ht
    simp [joinGame, hc, hs, ht, hid]

/-- Witness for C7: joining a concrete record whose White seat is taken
returns no write, and joining through an empty store returns no write. -/
theorem c7_witness :
    jsTruthyStr gSeatTaken.playersWhite = true ∧
      joinGame true "ABC123" "guest2" (storeOf gSeatTaken) = none ∧
      joinGame true "ABC123" "guest2" storeEmpty = none :=
  ⟨by decide,
    (c7_joinGame_guards true "ABC123" "guest2" (storeOf gSeatTaken) gSeatTaken).1
      rfl (by decide),
    (c7_joinGame_guards true "ABC123" "guest2" storeEmpty gSeatTaken).2.1 rfl⟩

/-- C8 counterexample: a non-null incoming record with a missing (hence
ill-typed) `board` field is not discarded — the handler overwrites the
healthy local board with the missing value instead of preserving it. -/
theorem c8_counterexample :
    (handleGameStateUpdate (some Player.black) (some rawMissingAll) vStart).board = none ∧
      vStart.board.isSome = true :=
  ⟨rfl, rfl⟩

/-! ### The directional scan loop equals the declarative bracketed run -/

lemma scanLoop_eq_scanOut (board : Board) (player : Player) (dr dc : Int) :
    ∀ (fuel : Nat) (r c : Int) (line toFlip : List (Int × Int)),
      scanLoop board player dr dc fuel r c line toFlip =
        scanOut toFlip line (scanPos board player (rayFrom dr dc fuel r c)) := by
  intro fuel
  induction fuel with
  | zero => intro r c line toFlip; rfl
  | succ n ih =>
    intro r c line toFlip
    simp only [scanLoop, rayFrom, scanPos]
    by_cases h1 : inBoard r c = true
    · by_cases h2 : board r c = Cell.empty
      · simp [h1, h2, scanOut]
      · by_cases h3 : board r c = (getOpponent player).toCell
        · simp only [h1, h2, h3, if_true, if_false, if_pos, if_neg, ite_true, ite_false,
            eq_self_iff_true, not_true, not_false_iff]
          rw [ih]
          cases hsp : scanPos board player (rayFrom dr dc n (r + dr) (c + dc)) with
          | none => simp [scanOut, toCell_ne_empty]
          | some l => simp [scanOut, List.append_assoc, toCell_ne_empty]
        · simp only [h1, h2, h3, if_true, if_false, if_pos, if_neg, ite_true, ite_false]
          simp [scanOut]
    · simp [h1, scanOut]

lemma scanPos_eq_bracket (board : Board) (player : Player) :
    ∀ ps : List (Int × Int),
      scanPos board player ps =
        if bracketB board player ps then some (ps.takeWhile (isOpp board player)) else none := by
  intro ps
  induction ps with
  | nil => rfl
  | cons p rest ih =>
    by_cases h1 : inBoard p.1 p.2 = true
    · by_cases h2 : board p.1 p.2 = Cell.empty
      · have hopp : isOpp board player p = false := by
          simp [isOpp, h2, Ne.symm (toCell_ne_empty (getOpponent player))]
        simp [scanPos, bracketB, List.dropWhile_cons, h1, h2, hopp,
          Ne.symm (toCell_ne_empty player)]
      · by_cases h3 : board p.1 p.2 = (getOpponent player).toCell
        · have hopp : isOpp board player p = true := by simp [isOpp, h1, h3]
          simp only [scanPos, h1, h2, h3, if_true, if_false, ite_true, ite_false]
          rw [ih]
          simp only [bracketB, List.dropWhile_cons, List.takeWhile_cons, hopp, ite_true]
          by_cases hb : bracketB board player rest = true
          · simp only [bracketB] at hb
            simp [hb, toCell_ne_empty, opponent_toCell_ne]
          · simp only [bracketB] at hb
            simp [hb, toCell_ne_empty, opponent_toCell_ne]
        · have hcell : board p.1 p.2 = player.toCell :=
            cell_eq_toCell_of_ne (board p.1 p.2) player h2 h3
          have hopp : isOpp board player p = false := by
            simp [isOpp, hcell, Ne.symm (opponent_toCell_ne player)]
          simp [scanPos, bracketB, List.dropWhile_cons, List.takeWhile_cons,
            h1, h2, h3, hopp, hcell, toCell_ne_empty, Ne.symm (opponent_toCell_ne player)]
    · have hopp : isOpp board player p = false := by simp [isOpp, h1]
      simp [scanPos, bracketB, List.dropWhile_cons, h1, hopp]

lemma scanLoop_dir (board : Board) (player : Player) (row col dr dc : Int)
    (toFlip : List (Int × Int)) :
    scanLoop board player dr dc 8 (row + dr) (col + dc) [] toFlip =
      toFlip ++ (if dirBracket board row col (dr, dc) player
        then dirRun board row col (dr, dc) player else []) := by
  rw [scanLoop_eq_scanOut]
  have hray : rayFrom dr dc 8 (row + dr) (col + dc) = rayPositions row col (dr, dc) := rfl
  rw [hray, scanPos_eq_bracket]
  simp only [dirBracket, dirRun]
  by_cases hb : bracketB board player (rayPositions row col (dr, dc)) = true
  · rw [if_pos hb, if_pos hb]
    cases (rayPositions row col (dr, dc)).takeWhile (isOpp board player) with
    | nil => simp [scanOut]
    | cons a t => simp [scanOut]
  · rw [if_neg hb, if_neg hb]
    simp [scanOut]

lemma canFlip_eq_flippableSpec (board : Board) (row col : Int) (player : Player) :
    canFlip board row col player = flippableSpec board row col player := by
  simp only [canFlip, flippableSpec, DIRECTIONS, List.foldl_cons, List.foldl_nil,
    List.flatMap_cons, List.flatMap_nil]
  simp only [scanLoop_dir]
  simp [List.append_assoc]

/-- C1: `canFlip` returns exactly the union over the 8 compass directions
of the contiguous opponent-colored runs starting adjacent to the position,
a run being included iff its scan terminates on a same-colored cell; a
direction ending on an empty cell or the board edge contributes nothing,
and several bracketing directions all contribute (union, not
first-match). -/
theorem c1_canFlip_directional_union (board : Board) (row col : Int) (player : Player) :
    canFlip board row col player = flippableSpec board row col player :=
  canFlip_eq_flippableSpec board row col player

/-! ### Geometry of the rays and the board after a move -/

lemma takeWhile_congr {α : Type} (p q : α → Bool) :
    ∀ l : List α, (∀ x ∈ l, p x = q x) → l.takeWhile p = l.takeWhile q := by
  intro l
  induction l with
  | nil => intro _; rfl
  | cons a t ih =>
    intro h
    rw [List.takeWhile_cons, List.takeWhile_cons, h a (List.mem_cons_self a t)]
    by_cases hq : q a = true
    · rw [if_pos hq, if_pos hq, ih fun x hx => h x (List.mem_cons_of_mem a hx)]
    · rw [if_neg hq, if_neg hq]

lemma dropWhile_congr {α : Type} (p q : α → Bool) :
    ∀ l : List α, (∀ x ∈ l, p x = q x) → l.dropWhile p = l.dropWhile q := by
  intro l
  induction l with
  | nil => intro _; rfl
  | cons a t ih =>
    intro h
    rw [List.dropWhile_cons, List.dropWhile_cons, h a (List.mem_cons_self a t)]
    by_cases hq : q a = true
    · rw [if_pos hq, if_pos hq, ih fun x hx => h x (List.mem_cons_of_mem a hx)]
    · rw [if_neg hq, if_neg hq]

lemma dropWhile_head_mem {α : Type} (p : α → Bool) (l : List α) (q : α) (t : List α)
    (h : l.dropWhile p = q :: t) : q ∈ l := by
  have hq : q ∈ l.dropWhile p := by rw [h]; exact List.mem_cons_self _ _
  exact (List.dropWhile_sublist p).subset hq

lemma mem_rayFrom (dr dc : Int) :
    ∀ (n : Nat) (r c : Int) (q : Int × Int), q ∈ rayFrom dr dc n r c →
      ∃ k : Nat, k < n ∧ q.1 = r + k * dr ∧ q.2 = c + k * dc := by
  intro n
  induction n with
  | zero => intro r c q h; simp [rayFrom] at h
  | succ m ih =>
    intro r c q h
    simp only [rayFrom, List.mem_cons] at h
    rcases h with h | h
    · exact ⟨0, by omega, by simp [h], by simp [h]⟩
    · obtain ⟨k, hk, h1, h2⟩ := ih _ _ _ h
      refine ⟨k + 1, by omega, ?_, ?_⟩
      · rw [h1]; push_cast; ring
      · rw [h2]; push_cast; ring

lemma mem_rayPositions (row col : Int) (d : Int × Int) (q : Int × Int)
    (h : q ∈ rayPositions row col d) :
    ∃ k : Nat, k < 8 ∧ q.1 = row + ((k : Int) + 1) * d.1 ∧
      q.2 = col + ((k : Int) + 1) * d.2 := by
  obtain ⟨k, hk, h1, h2⟩ := mem_rayFrom d.1 d.2 8 (row + d.1) (col + d.2) q h
  exact ⟨k, hk, by rw [h1]; ring, by rw [h2]; ring⟩

set_option maxHeartbeats 1000000 in
lemma dirs_disjoint (d : Int × Int) (hd : d ∈ DIRECTIONS) (e : Int × Int)
    (he : e ∈ DIRECTIONS) (hne : d ≠ e) (a b : Nat) :
    ¬(((a : Int) + 1) * d.1 = ((b : Int) + 1) * e.1 ∧
      ((a : Int) + 1) * d.2 = ((b : Int) + 1) * e.2) := by
  simp only [DIRECTIONS] at hd he
  fin_cases hd <;> fin_cases he <;>
    first
      | exact absurd rfl hne
      | (rintro ⟨h1, h2⟩; omega)

lemma mem_canFlip_elim (board : Board) (row col : Int) (player : Player)
    (q : Int × Int) (h : q ∈ canFlip board row col player) :
    ∃ d ∈ DIRECTIONS, dirBracket board row col d player = true ∧
      q ∈ dirRun board row col d player := by
  rw [canFlip_eq_flippableSpec] at h
  simp only [flippableSpec, List.mem_flatMap] at h
  obtain ⟨d, hd, hq⟩ := h
  by_cases hb : dirBracket board row col d player = true
  · exact ⟨d, hd, hb, by rwa [if_pos hb] at hq⟩
  · rw [if_neg hb] at hq
    simp at hq

lemma dirRun_head (board : Board) (row col : Int) (player : Player) (d : Int × Int)
    (h : dirRun board row col d player ≠ []) :
    (row + d.1, col + d.2) ∈ dirRun board row col d player := by
  have hray : rayPositions row col d =
      (row + d.1, col + d.2) ::
        rayFrom d.1 d.2 7 (row + d.1 + d.1) (col + d.2 + d.2) := rfl
  unfold dirRun at h ⊢
  rw [hray, List.takeWhile_cons] at h ⊢
  by_cases hp : isOpp board player (row + d.1, col + d.2) = true
  · rw [if_pos hp]
    exact List.mem_cons_self _ _
  · rw [if_neg hp] at h
    exact absurd rfl h

lemma mem_canFlip_cell (board : Board) (row col : Int) (player : Player)
    (q : Int × Int) (h : q ∈ canFlip board row col player) :
    board q.1 q.2 = (getOpponent player).toCell := by
  obtain ⟨d, _, _, hq⟩ := mem_canFlip_elim board row col player q h
  have := List.mem_takeWhile_imp hq
  simp only [isOpp, Bool.and_eq_true, decide_eq_true_eq] at this
  exact this.2

lemma dir_step_ne_zero (d : Int × Int) (hd : d ∈ DIRECTIONS) (k : Nat) :
    ¬(((k : Int) + 1) * d.1 = 0 ∧ ((k : Int) + 1) * d.2 = 0) := by
  simp only [DIRECTIONS] at hd
  fin_cases hd <;> (rintro ⟨h1, h2⟩; omega)

lemma mem_canFlip_ne_target (board : Board) (row col : Int) (player : Player)
    (q : Int × Int) (h : q ∈ canFlip board row col player) :
    ¬(q.1 = row ∧ q.2 = col) := by
  obtain ⟨d, hd, _, hq⟩ := mem_canFlip_elim board row col player q h
  have hray : q ∈ rayPositions row col d := (List.takeWhile_sublist _).subset hq
  obtain ⟨k, hk, h1, h2⟩ := mem_rayPositions row col d q hray
  rintro ⟨hq1, hq2⟩
  refine dir_step_ne_zero d hd k ⟨?_, ?_⟩
  · have h0 : row + 0 = row + ((k : Int) + 1) * d.1 := by
      rw [add_zero]
      exact hq1.symm.trans h1
    exact (add_left_cancel h0).symm
  · have h0 : col + 0 = col + ((k : Int) + 1) * d.2 := by
      rw [add_zero]
      exact hq2.symm.trans h2
    exact (add_left_cancel h0).symm

lemma canFlip_applyMove_self (board : Board) (row col : Int) (player : Player) :
    canFlip (applyMoveBoard board row col player (canFlip board row col player))
      row col player = [] := by
  set flips := canFlip board row col player with hflips
  set b2 := applyMoveBoard board row col player flips with hb2
  rw [canFlip_eq_flippableSpec]
  simp only [flippableSpec]
  rw [List.flatMap_eq_nil_iff]
  intro d hd
  by_cases hrun : dirRun b2 row col d player = []
  · rw [hrun, ite_self]
  · have hp1mem : (row + d.1, col + d.2) ∈ dirRun b2 row col d player :=
      dirRun_head b2 row col player d hrun
    have hp1opp := List.mem_takeWhile_imp hp1mem
    simp only [isOpp, Bool.and_eq_true, decide_eq_true_eq] at hp1opp
    have hp1cell : b2 (row + d.1) (col + d.2) = (getOpponent player).toCell := hp1opp.2
    have hcond : ¬((row + d.1 = row ∧ col + d.2 = col) ∨ (row + d.1, col + d.2) ∈ flips) := by
      intro hc
      have hpl : b2 (row + d.1) (col + d.2) = player.toCell := by
        rw [hb2]
        simp only [applyMoveBoard]
        rw [if_pos hc]
      rw [hp1cell] at hpl
      exact opponent_toCell_ne player hpl
    have hunch : ∀ q ∈ rayPositions row col d, b2 q.1 q.2 = board q.1 q.2 := by
      intro q hq
      obtain ⟨k, hk, h1, h2⟩ := mem_rayPositions row col d q hq
      rw [hb2]
      simp only [applyMoveBoard]
      rw [if_neg]
      intro hc
      rcases hc with hc | hc
      · obtain ⟨hq1, hq2⟩ := hc
        refine dir_step_ne_zero d hd k ⟨?_, ?_⟩
        · have h0 : row + 0 = row + ((k : Int) + 1) * d.1 := by
            rw [add_zero]
            exact hq1.symm.trans h1
          exact (add_left_cancel h0).symm
        · have h0 : col + 0 = col + ((k : Int) + 1) * d.2 := by
            rw [add_zero]
            exact hq2.symm.trans h2
          exact (add_left_cancel h0).symm
      · obtain ⟨e, he, hbe, hqe⟩ := mem_canFlip_elim board row col player q (hflips ▸ hc)
        by_cases hde : e = d
        · subst hde
          have hrun0 : dirRun board row col e player ≠ [] := by
            intro h0
            rw [h0] at hqe
            simp at hqe
          have hhead0 : (row + e.1, col + e.2) ∈ dirRun board row col e player :=
            dirRun_head board row col player e hrun0
          have hheadflip : (row + e.1, col + e.2) ∈ flips := by
            rw [hflips, canFlip_eq_flippableSpec]
            simp only [flippableSpec, List.mem_flatMap]
            exact ⟨e, he, by rw [if_pos hbe]; exact hhead0⟩
          exact hcond (Or.inr hheadflip)
        · have hqray : q ∈ rayPositions row col e := (List.takeWhile_sublist _).subset hqe
          obtain ⟨m, hm, g1, g2⟩ := mem_rayPositions row col e q hqray
          refine dirs_disjoint d hd e he (fun hh => hde hh.symm) k m ⟨?_, ?_⟩
          · exact add_left_cancel (h1.symm.trans g1)
          · exact add_left_cancel (h2.symm.trans g2)
    have hrun_eq : dirRun b2 row col d player = dirRun board row col d player := by
      unfold dirRun
      apply takeWhile_congr
      intro x hx
      simp [isOpp, hunch x hx]
    have hbr_eq : dirBracket b2 row col d player = dirBracket board row col d player := by
      unfold dirBracket bracketB
      have hdw : (rayPositions row col d).dropWhile (isOpp b2 player)
          = (rayPositions row col d).dropWhile (isOpp board player) := by
        apply dropWhile_congr
        intro x hx
        simp [isOpp, hunch x hx]
      rw [hdw]
      cases hh : (rayPositions row col d).dropWhile (isOpp board player) with
      | nil => rfl
      | cons q t =>
        show (inBoard q.1 q.2 && decide (b2 q.1 q.2 = player.toCell))
          = (inBoard q.1 q.2 && decide (board q.1 q.2 = player.toCell))
        rw [hunch q (dropWhile_head_mem _ _ _ _ hh)]
    by_cases hb : dirBracket board row col d player = true
    · have hrun0 : dirRun board row col d player ≠ [] := hrun_eq ▸ hrun
      have hhead0 : (row + d.1, col + d.2) ∈ dirRun board row col d player :=
        dirRun_head board row col player d hrun0
      have hheadflip : (row + d.1, col + d.2) ∈ flips := by
        rw [hflips, canFlip_eq_flippableSpec]
        simp only [flippableSpec, List.mem_flatMap]
        exact ⟨d, hd, by rw [if_pos hb]; exact hhead0⟩
      exact absurd (Or.inr hheadflip) hcond
    · rw [hbr_eq, if_neg hb]

/-! ### Stone counting -/

lemma countP_split (l : List Cell) :
    (l.countP fun cell => decide (cell = Cell.black))
      + (l.countP fun cell => decide (cell = Cell.white))
      = l.countP fun cell => decide (cell ≠ Cell.empty) := by
  induction l with
  | nil => rfl
  | cons a t ih =>
    rw [List.countP_cons, List.countP_cons, List.countP_cons]
    cases a
    · rw [if_neg (by decide), if_neg (by decide), if_neg (by decide)]
      omega
    · rw [if_pos (by decide), if_neg (by decide), if_pos (by decide)]
      omega
    · rw [if_neg (by decide), if_pos (by decide), if_pos (by decide)]
      omega

lemma stone_sum (b : Board) :
    getStoneCount b Player.black + getStoneCount b Player.white
      = (boardFlat b).countP fun cell => decide (cell ≠ Cell.empty) := by
  simp only [getStoneCount, Player.toCell]
  exact countP_split (boardFlat b)

lemma boardFlat_eq_map (b : Board) : boardFlat b = gridIdx.map fun q => b q.1 q.2 := by
  simp only [boardFlat, gridIdx, List.map_flatMap, List.map_map]
  rfl

lemma mem_gridIdx (r c : Int) :
    (r, c) ∈ gridIdx ↔ 0 ≤ r ∧ r < 8 ∧ 0 ≤ c ∧ c < 8 := by
  constructor
  · intro h
    replace h : (r, c) ∈ (List.range 8).flatMap
        (fun (a : Nat) => (List.range 8).map fun (b : Nat) => ((a : Int), (b : Int))) := h
    obtain ⟨a, ha, hmem⟩ := List.mem_flatMap.mp h
    obtain ⟨b, hb, heq⟩ := List.mem_map.mp hmem
    rw [Prod.mk.injEq] at heq
    obtain ⟨e1, e2⟩ := heq
    have ha' := List.mem_range.mp ha
    have hb' := List.mem_range.mp hb
    omega
  · rintro ⟨h0, h1, h2, h3⟩
    have hcast : (r, c) = ((r.toNat : Int), (c.toNat : Int)) := by
      rw [Int.toNat_of_nonneg h0, Int.toNat_of_nonneg h2]
    rw [hcast]
    show _ ∈ (List.range 8).flatMap
      (fun (a : Nat) => (List.range 8).map fun (b : Nat) => ((a : Int), (b : Int)))
    refine List.mem_flatMap.mpr ⟨r.toNat, List.mem_range.mpr (by omega), ?_⟩
    exact List.mem_map.mpr ⟨c.toNat, List.mem_range.mpr (by omega), rfl⟩

lemma gridIdx_nodup : gridIdx.Nodup := by decide

lemma countP_move (f g : Int × Int → Cell) (t : Int × Int) :
    ∀ l : List (Int × Int), l.Nodup → t ∈ l →
      (∀ q ∈ l, q ≠ t → decide (g q ≠ Cell.empty) = decide (f q ≠ Cell.empty)) →
      f t = Cell.empty → g t ≠ Cell.empty →
      (l.countP fun q => decide (g q ≠ Cell.empty))
        = (l.countP fun q => decide (f q ≠ Cell.empty)) + 1 := by
  intro l
  induction l with
  | nil => intro _ h; simp at h
  | cons a lt ih =>
    intro hnd hmem hoff hft hgt
    rw [List.countP_cons, List.countP_cons]
    rcases List.mem_cons.mp hmem with rfl | hmem'
    · have hnotin : t ∉ lt := (List.nodup_cons.mp hnd).1
      have hcong : (lt.countP fun q => decide (g q ≠ Cell.empty))
          = lt.countP fun q => decide (f q ≠ Cell.empty) := by
        apply List.countP_congr
        intro x hx
        rw [hoff x (List.mem_cons_of_mem _ hx) fun hh => hnotin (hh ▸ hx)]
      rw [hcong]
      simp [hft, hgt]
    · have hnd' := (List.nodup_cons.mp hnd).2
      have hanotin := (List.nodup_cons.mp hnd).1
      have hat : a ≠ t := fun hh => hanotin (hh ▸ hmem')
      rw [hoff a (List.mem_cons_self _ _) hat]
      have hrec := ih hnd' hmem' (fun q hq hqt => hoff q (List.mem_cons_of_mem _ hq) hqt) hft hgt
      omega

/-! ### The successful branch of makeMove -/

lemma makeMove_success_eq (s : LocalState) (row col : Int) (player : Player)
    (h1 : s.hasGameRef = true) (h2 : s.gamePhase = GamePhase.playing)
    (h3 : s.myColor = some s.currentPlayer)
    (h5 : canFlip s.board row col player ≠ []) :
    makeMove s row col player = (s, true, some (movePatchOf s.board row col player)) := by
  have hg : ¬(s.hasGameRef = false ∨ s.gamePhase ≠ GamePhase.playing ∨
      some s.currentPlayer ≠ s.myColor) := by
    push_neg
    exact ⟨by simp [h1], h2, h3.symm⟩
  have hlen : ¬(canFlip s.board row col player).length = 0 := fun hh =>
    h5 (List.length_eq_zero.mp hh)
  simp only [makeMove]
  rw [if_neg hg, if_neg hlen]

lemma movePatchOf_board (board : Board) (row col : Int) (player : Player) :
    (movePatchOf board row col player).board
      = applyMoveBoard board row col player (canFlip board row col player) := rfl

lemma movePatchOf_opp_moves (board : Board) (row col : Int) (player : Player)
    (h : getValidMoves (applyMoveBoard board row col player (canFlip board row col player))
        (getOpponent player) ≠ []) :
    (movePatchOf board row col player).currentPlayer = getOpponent player ∧
    (movePatchOf board row col player).gamePhase = GamePhase.playing ∧
    (movePatchOf board row col player).gameResult = none := by
  simp only [getOpponent] at h ⊢
  simp only [movePatchOf]
  have hlen : ¬(getValidMoves
      (applyMoveBoard board row col player (canFlip board row col player))
      (if player = Player.black then Player.white else Player.black)).length = 0 :=
    fun hh => h (List.length_eq_zero.mp hh)
  refine ⟨?_, ?_, ?_⟩
  · rw [if_pos (by omega)]
  · rw [if_neg hlen]
  · rw [if_neg hlen]

lemma movePatchOf_pass (board : Board) (row col : Int) (player : Player)
    (hopp : getValidMoves (applyMoveBoard board row col player (canFlip board row col player))
        (getOpponent player) = [])
    (hcur : getValidMoves (applyMoveBoard board row col player (canFlip board row col player))
        player ≠ []) :
    (movePatchOf board row col player).currentPlayer = player ∧
    (movePatchOf board row col player).gamePhase = GamePhase.playing ∧
    (movePatchOf board row col player).gameResult = none := by
  simp only [getOpponent] at hopp
  simp only [movePatchOf]
  have hlen : (getValidMoves
      (applyMoveBoard board row col player (canFlip board row col player))
      (if player = Player.black then Player.white else Player.black)).length = 0 := by
    rw [hopp]
    rfl
  have hlen2 : ¬(getValidMoves
      (applyMoveBoard board row col player (canFlip board row col player))
      player).length = 0 := fun hh => hcur (List.length_eq_zero.mp hh)
  refine ⟨?_, ?_, ?_⟩
  · rw [if_neg (by omega)]
  · rw [if_pos hlen, if_neg hlen2]
  · rw [if_pos hlen, if_neg hlen2]

lemma movePatchOf_finished (board : Board) (row col : Int) (player : Player)
    (hopp : getValidMoves (applyMoveBoard board row col player (canFlip board row col player))
        (getOpponent player) = [])
    (hcur : getValidMoves (applyMoveBoard board row col player (canFlip board row col player))
        player = []) :
    (movePatchOf board row col player).gamePhase = GamePhase.finished ∧
    (movePatchOf board row col player).gameResult
      = some (if getStoneCount
            (applyMoveBoard board row col player (canFlip board row col player)) Player.black >
          getStoneCount
            (applyMoveBoard board row col player (canFlip board row col player)) Player.white
        then GameResult.black
        else if getStoneCount
            (applyMoveBoard board row col player (canFlip board row col player)) Player.white >
          getStoneCount
            (applyMoveBoard board row col player (canFlip board row col player)) Player.black
        then GameResult.white
        else GameResult.draw) := by
  simp only [getOpponent] at hopp
  simp only [movePatchOf]
  have hlen : (getValidMoves
      (applyMoveBoard board row col player (canFlip board row col player))
      (if player = Player.black then Player.white else Player.black)).length = 0 := by
    rw [hopp]
    rfl
  have hlen2 : (getValidMoves
      (applyMoveBoard board row col player (canFlip board row col player))
      player).length = 0 := by
    rw [hcur]
    rfl
  refine ⟨?_, ?_⟩
  · rw [if_pos hlen, if_pos hlen2]
  · rw [if_pos hlen, if_pos hlen2]

/-- C3: for every legal move applied by `makeMove` (phase playing, mover
at turn, empty target, non-empty flip set), the written turn transition
satisfies: if the opponent has legal moves on the resulting board, the
patched `currentPlayer` is the opponent and the phase stays playing;
otherwise if the mover also has none, the phase becomes finished and the
result follows the strict majority of stone counts (draw on a tie), with
no extra turn; otherwise the mover keeps the turn (implicit pass) and the
phase stays playing. -/
theorem c3_turn_transition (s : LocalState) (row col : Int) (player : Player)
    (h1 : s.hasGameRef = true) (h2 : s.gamePhase = GamePhase.playing)
    (h3 : s.myColor = some s.currentPlayer) (h4 : s.board row col = Cell.empty)
    (h5 : canFlip s.board row col player ≠ []) :
    (makeMove s row col player).2.1 = true ∧
    (getValidMoves (applyMoveBoard s.board row col player (canFlip s.board row col player))
        (getOpponent player) ≠ [] →
      (makeMove s row col player).2.2.map MovePatch.currentPlayer
          = some (getOpponent player) ∧
      (makeMove s row col player).2.2.map MovePatch.gamePhase = some GamePhase.playing) ∧
    (getValidMoves (applyMoveBoard s.board row col player (canFlip s.board row col player))
        (getOpponent player) = [] →
      getValidMoves (applyMoveBoard s.board row col player (canFlip s.board row col player))
        player = [] →
      (makeMove s row col player).2.2.map MovePatch.gamePhase = some GamePhase.finished ∧
      (getStoneCount (applyMoveBoard s.board row col player (canFlip s.board row col player))
            Player.black >
          getStoneCount (applyMoveBoard s.board row col player (canFlip s.board row col player))
            Player.white →
        (makeMove s row col player).2.2.map MovePatch.gameResult
          = some (some GameResult.black)) ∧
      (getStoneCount (applyMoveBoard s.board row col player (canFlip s.board row col player))
            Player.white >
          getStoneCount (applyMoveBoard s.board row col player (canFlip s.board row col player))
            Player.black →
        (makeMove s row col player).2.2.map MovePatch.gameResult
          = some (some GameResult.white)) ∧
      (getStoneCount (applyMoveBoard s.board row col player (canFlip s.board row col player))
            Player.black =
          getStoneCount (applyMoveBoard s.board row col player (canFlip s.board row col player))
            Player.white →
        (makeMove s row col player).2.2.map MovePatch.gameResult
          = some (some GameResult.draw))) ∧
    (getValidMoves (applyMoveBoard s.board row col player (canFlip s.board row col player))
        (getOpponent player) = [] →
      getValidMoves (applyMoveBoard s.board row col player (canFlip s.board row col player))
        player ≠ [] →
      (makeMove s row col player).2.2.map MovePatch.currentPlayer = some player ∧
      (makeMove s row col player).2.2.map MovePatch.gamePhase = some GamePhase.playing ∧
      (makeMove s row col player).2.2.map MovePatch.gameResult = some none) := by
  rw [makeMove_success_eq s row col player h1 h2 h3 h5]
  simp only [Option.map_some']
  refine ⟨by trivial, ?_, ?_, ?_⟩
  · intro hA
    have hb := movePatchOf_opp_moves s.board row col player hA
    exact ⟨by rw [hb.1], by rw [hb.2.1]⟩
  · intro hA hB
    have hb := movePatchOf_finished s.board row col player hA hB
    refine ⟨by rw [hb.1], ?_, ?_, ?_⟩
    · intro hgt
      rw [hb.2, if_pos hgt]
    · intro hgt
      rw [hb.2, if_neg (by omega), if_pos hgt]
    · intro heq
      rw [hb.2, if_neg (by omega), if_neg (by omega)]
  · intro hA hB
    have hb := movePatchOf_pass s.board row col player hA hB
    exact ⟨by rw [hb.1], by rw [hb.2.1], by rw [hb.2.2]⟩

/-- Witness for C3: Black's legal opening move at (2,3) from the standard
start; White then has legal moves, so the turn passes to White with the
phase still playing. -/
theorem c3_witness :
    sInit.hasGameRef = true ∧ sInit.gamePhase = GamePhase.playing ∧
      sInit.myColor = some sInit.currentPlayer ∧ sInit.board 2 3 = Cell.empty ∧
      canFlip sInit.board 2 3 Player.black ≠ [] ∧
      ((makeMove sInit 2 3 Player.black).2.1 = true ∧
        (makeMove sInit 2 3 Player.black).2.2.map MovePatch.currentPlayer
          = some (getOpponent Player.black) ∧
        (makeMove sInit 2 3 Player.black).2.2.map MovePatch.gamePhase
          = some GamePhase.playing) := by
  have h := c3_turn_transition sInit 2 3 Player.black (by decide) (by decide) (by decide)
    (by decide) (by decide)
  have hA : getValidMoves
      (applyMoveBoard sInit.board 2 3 Player.black (canFlip sInit.board 2 3 Player.black))
      (getOpponent Player.black) ≠ [] := by decide
  exact ⟨by decide, by decide, by decide, by decide, by decide,
    h.1, (h.2.1 hA).1, (h.2.1 hA).2⟩

/-- C4 counterexample: in a playing state over `cexBoard`, the target cell
(0,0) holds a White stone, yet the flip set for Black is non-empty, so
`makeMove` accepts the move — it returns true and writes a board in which
the occupied target cell was overwritten with Black. -/
theorem c4_counterexample :
    (makeMove sCex 0 0 Player.black).2.1 = true ∧
      (makeMove sCex 0 0 Player.black).2.2.map (fun p => p.board 0 0) = some Cell.black ∧
      sCex.board 0 0 = Cell.white := by
  refine ⟨by decide, by decide, by decide⟩

/-- C4 (amended): `makeMove` rejects a move exactly when its flip set is
empty — returning false with no patch and the local state unchanged — but
does not itself check that the target cell is Empty (that check is left
to the caller); reapplying a move to the board that move itself produced
still fails, because the produced board's flip set at that position is
empty. -/
theorem c4_makeMove_rejection (s : LocalState) (row col : Int) (player : Player) :
    (canFlip s.board row col player = [] → makeMove s row col player = (s, false, none)) ∧
    makeMove
        { s with board := applyMoveBoard s.board row col player (canFlip s.board row col player) }
        row col player =
      ({ s with board := applyMoveBoard s.board row col player (canFlip s.board row col player) },
        false, none) := by
  constructor
  · intro h
    simp only [makeMove]
    split_ifs with hg hl
    · rfl
    · rfl
    · exact absurd (by rw [h]; rfl) hl
  · simp only [makeMove]
    split_ifs with hg hl
    · rfl
    · rfl
    · exfalso
      apply hl
      show (canFlip (applyMoveBoard s.board row col player (canFlip s.board row col player))
        row col player).length = 0
      rw [canFlip_applyMove_self]
      rfl

/-- Witness for C4: from the start position no run is bracketed at (0,0),
so the move is rejected with no write and no state change. -/
theorem c4_witness :
    canFlip sInit.board 0 0 Player.black = [] ∧
      makeMove sInit 0 0 Player.black = (sInit, false, none) :=
  ⟨by decide, (c4_makeMove_rejection sInit 0 0 Player.black).1 (by decide)⟩

/-- C6 counterexample: with the phase playing and the mover at turn, a
move whose target cell is occupied but whose flip set is non-empty is
illegal for the rules engine, yet `makeMove` returns true and issues a
remote write. -/
theorem c6_counterexample :
    (makeMove sCex 0 0 Player.black).2.1 = true ∧
      ((makeMove sCex 0 0 Player.black).2.2).isSome = true ∧
      sCex.board 0 0 ≠ Cell.empty := by
  refine ⟨by decide, by decide, by decide⟩

/-- C6 (amended): `makeMove` is a guarded no-op — it returns false with no
remote write whenever the session ref is missing, the phase is not
playing, or the current player is not the local color, and likewise when
the flip set computed on the local board copy is empty (it does not check
that the target cell is Empty); the local view is never updated by this
call, a false return never carries a write, and a successful call issues
exactly one patch (whose fields are the board, currentPlayer, phase,
result and lastMove, by the shape of `MovePatch`). -/
theorem c6_makeMove_guarded (s : LocalState) (row col : Int) (player : Player) :
    ((s.hasGameRef = false ∨ s.gamePhase ≠ GamePhase.playing ∨
        some s.currentPlayer ≠ s.myColor) →
      makeMove s row col player = (s, false, none)) ∧
    (canFlip s.board row col player = [] → makeMove s row col player = (s, false, none)) ∧
    (makeMove s row col player).1 = s ∧
    ((makeMove s row col player).2.1 = true →
      ((makeMove s row col player).2.2).isSome = true) ∧
    ((makeMove s row col player).2.1 = false → (makeMove s row col player).2.2 = none) := by
  refine ⟨?_, ?_, ?_, ?_, ?_⟩
  · intro h
    simp only [makeMove]
    rw [if_pos h]
  · intro h
    simp only [makeMove]
    split_ifs with hg hl
    · rfl
    · rfl
    · exact absurd (by rw [h]; rfl) hl
  · simp only [makeMove]
    split_ifs <;> rfl
  · simp only [makeMove]
    split_ifs <;> simp
  · simp only [makeMove]
    split_ifs <;> simp

/-- Witness for C6: in the waiting phase the guard rejects Black's
otherwise-legal opening move with no write and no state change. -/
theorem c6_witness :
    (sWaiting.hasGameRef = false ∨ sWaiting.gamePhase ≠ GamePhase.playing ∨
        some sWaiting.currentPlayer ≠ sWaiting.myColor) ∧
      makeMove sWaiting 2 3 Player.black = (sWaiting, false, none) :=
  ⟨by decide, (c6_makeMove_guarded sWaiting 2 3 Player.black).1 (by decide)⟩

/-- C10 counterexample: a successful `makeMove` onto the occupied cell
(0,0) of `cexBoard` leaves the total stone count unchanged at 3 instead
of increasing it by one. -/
theorem c10_counterexample :
    (makeMove sCex 0 0 Player.black).2.1 = true ∧
      (makeMove sCex 0 0 Player.black).2.2.map
          (fun p => getStoneCount p.board Player.black + getStoneCount p.board Player.white)
        = some (getStoneCount sCex.board Player.black
            + getStoneCount sCex.board Player.white) ∧
      sCex.board 0 0 ≠ Cell.empty := by
  refine ⟨by decide, by decide, by decide⟩

/-- C10 (amended): every successful `makeMove` sets the target cell and
every `canFlip` position to the mover's color and leaves every other cell
unchanged; no cell becomes Empty; and when the target cell was Empty the
total stone count increases by exactly one (the code does not reject an
occupied target, and then the count stays unchanged). -/
theorem c10_frame_effect (s : LocalState) (row col : Int) (player : Player) (r c : Int)
    (h1 : s.hasGameRef = true) (h2 : s.gamePhase = GamePhase.playing)
    (h3 : s.myColor = some s.currentPlayer)
    (h5 : canFlip s.board row col player ≠ [])
    (hrow : 0 ≤ row ∧ row < 8) (hcol : 0 ≤ col ∧ col < 8) :
    (makeMove s row col player).2.1 = true ∧
    (((r = row ∧ c = col) ∨ (r, c) ∈ canFlip s.board row col player) →
      (makeMove s row col player).2.2.map (fun p => p.board r c) = some player.toCell) ∧
    (¬((r = row ∧ c = col) ∨ (r, c) ∈ canFlip s.board row col player) →
      (makeMove s row col player).2.2.map (fun p => p.board r c) = some (s.board r c)) ∧
    (s.board r c ≠ Cell.empty →
      (makeMove s row col player).2.2.map (fun p => decide (p.board r c ≠ Cell.empty))
        = some true) ∧
    (s.board row col = Cell.empty →
      (makeMove s row col player).2.2.map
          (fun p => getStoneCount p.board Player.black + getStoneCount p.board Player.white)
        = some (getStoneCount s.board Player.black
            + getStoneCount s.board Player.white + 1)) := by
  rw [makeMove_success_eq s row col player h1 h2 h3 h5]
  simp only [Option.map_some', movePatchOf_board]
  refine ⟨by trivial, ?_, ?_, ?_, ?_⟩
  · intro hc
    simp only [applyMoveBoard]
    rw [if_pos hc]
  · intro hc
    simp only [applyMoveBoard]
    rw [if_neg hc]
  · intro hne
    by_cases hc : (r = row ∧ c = col) ∨ (r, c) ∈ canFlip s.board row col player
    · simp only [applyMoveBoard]
      simp [hc, toCell_ne_empty]
    · simp only [applyMoveBoard]
      simp [hc, hne]
  · intro hemp
    rw [Option.some.injEq]
    rw [stone_sum, stone_sum, boardFlat_eq_map, boardFlat_eq_map,
      List.countP_map, List.countP_map]
    have hmem : (row, col) ∈ gridIdx :=
      (mem_gridIdx row col).mpr ⟨hrow.1, hrow.2, hcol.1, hcol.2⟩
    refine countP_move (fun q => s.board q.1 q.2)
      (fun q =>
        applyMoveBoard s.board row col player (canFlip s.board row col player) q.1 q.2)
      (row, col) gridIdx gridIdx_nodup hmem ?_ hemp ?_
    · intro q hq hqt
      by_cases hf : (q.1 = row ∧ q.2 = col) ∨ (q.1, q.2) ∈ canFlip s.board row col player
      · have hnew : applyMoveBoard s.board row col player
            (canFlip s.board row col player) q.1 q.2 = player.toCell := by
          simp only [applyMoveBoard]
          rw [if_pos hf]
        rcases hf with hf | hf
        · exact absurd (Prod.ext hf.1 hf.2) hqt
        · have hold : s.board q.1 q.2 = (getOpponent player).toCell :=
            mem_canFlip_cell s.board row col player q (by rwa [Prod.mk.eta] at hf)
          simp [hnew, hold, toCell_ne_empty]
      · have hnew : applyMoveBoard s.board row col player
            (canFlip s.board row col player) q.1 q.2 = s.board q.1 q.2 := by
          simp only [applyMoveBoard]
          rw [if_neg hf]
        simp [hnew]
    · show applyMoveBoard s.board row col player
        (canFlip s.board row col player) row col ≠ Cell.empty
      simp only [applyMoveBoard]
      simp [toCell_ne_empty]

/-- Witness for C10: Black's legal opening move at (2,3): the flipped cell
(3,3) becomes Black, the untouched cell (0,0) keeps its value, and the
stone count goes from 4 to 5. -/
theorem c10_witness :
    canFlip sInit.board 2 3 Player.black ≠ [] ∧
      ((makeMove sInit 2 3 Player.black).2.1 = true ∧
        (((3 : Int) = 2 ∧ (3 : Int) = 3) ∨ ((3 : Int), (3 : Int)) ∈
            canFlip sInit.board 2 3 Player.black) ∧
        (makeMove sInit 2 3 Player.black).2.2.map (fun p => p.board 3 3)
          = some Player.black.toCell ∧
        (makeMove sInit 2 3 Player.black).2.2.map
            (fun p => getStoneCount p.board Player.black + getStoneCount p.board Player.white)
          = some (getStoneCount sInit.board Player.black
              + getStoneCount sInit.board Player.white + 1)) := by
  have h := c10_frame_effect sInit 2 3 Player.black 3 3 (by decide) (by decide) (by decide)
    (by decide) (by decide) (by decide)
  have hc : ((3 : Int) = 2 ∧ (3 : Int) = 3) ∨ ((3 : Int), (3 : Int)) ∈
      canFlip sInit.board 2 3 Player.black := by decide
  exact ⟨by decide, h.1, hc, h.2.1 hc, h.2.2.2.2 (by decide)⟩

/-- C8 (amended): the remote-update handler discards only a null/absent
record, leaving the local view unchanged; every non-null record, malformed
or not, has its `board`, `currentPlayer`, `gamePhase` and `gameResult`
copied into the local view verbatim with no shape validation. -/
theorem c8_handleGameStateUpdate (myColor : Option Player) (v : LocalView) (g : RawRecord) :
    handleGameStateUpdate myColor none v = v ∧
    (handleGameStateUpdate myColor (some g) v).board = g.board ∧
    (handleGameStateUpdate myColor (some g) v).currentPlayer = g.currentPlayer ∧
    (handleGameStateUpdate myColor (some g) v).gamePhase = g.gamePhase ∧
    (handleGameStateUpdate myColor (some g) v).gameResult = g.gameResult :=
  ⟨rfl, rfl, rfl, rfl, rfl⟩

end Reversi
